import Mathlib

/-!
# Verification of the EEG platform core (session undo/redo, batch jobs, TFR jobs)

Shallow embedding of `backend/app/services/session_manager.py`,
`backend/app/services/batch_processing_service.py` and
`backend/app/services/tfr_jobs.py`, together with theorems checking the
specification's claims about them.

Conventions used throughout:
* Python lists that are used as stacks (`append` at the end, `pop()` from the
  end, `pop(0)` from the front) are represented as Lean lists with the *top of
  the stack at the head*: Python `append(x)` is `x :: l`, Python `pop()` is
  taking the head, and Python `pop(0)` (evicting the oldest element) is
  `l.dropLast`.
* The processing-history list is kept in Python order (oldest first): Python
  `append` is `l ++ [x]`, Python `history[-1]` is `l.getLast?`, Python
  `history.pop()` is `l.dropLast`.
* `datetime.now()` values are modelled as `Nat` arguments supplied by the
  caller; they are only stored, never compared.
* `.copy()` on MNE `Raw`/`Epochs` objects becomes the identity: the embedding
  uses value semantics, so aliasing concerns disappear and a copy is just the
  value itself.  The `Raw` and `Epochs` payload types are parameters of the
  embedding; the claims do not depend on their internal structure.
-/

namespace EEGPlatform

/-- A processing-history record: Python dict
`{"operation": ..., "params": ..., "timestamp": ...}` built by
`EEGSession.save_state` / `EEGSession.add_history`.  Params dicts are
modelled as association lists of strings. -/
structure HistRec where
  operation : String
  params : List (String × String)
  timestamp : Nat
deriving DecidableEq, Repr

/-- A stack entry of `_undo_stack` / `_redo_stack`: the tuple
`(raw_copy, history_dict_or_None, epochs_or_None)`.  `save_state` always
stores a (non-`None`) dict, but `undo`/`redo` push
`processing_history[-1] if processing_history else None`, so the middle
component is an `Option`.  (The legacy 2-tuple branch of `undo`/`redo` is
dead in this embedding: every push site in the source pushes a 3-tuple.) -/
abbrev StackEntry (Raw Epochs : Type) := Raw × Option HistRec × Option Epochs

/-- `EEGSession` (session_manager.py lines 12-26).  `created_at` and
`last_accessed` are `datetime` fields modelled as `Nat`. -/
structure Session (Raw Epochs : Type) where
  session_id : String
  file_path : String
  raw : Option Raw
  epochs : Option Epochs
  created_at : Nat
  last_accessed : Nat
  processing_history : List HistRec
  undo_stack : List (StackEntry Raw Epochs)
  redo_stack : List (StackEntry Raw Epochs)
deriving DecidableEq, Repr

variable {Raw Epochs : Type}

/-- A fresh session, as built by `EEGSession.__init__`. -/
def mkSession (session_id file_path : String) (now : Nat) : Session Raw Epochs :=
  { session_id := session_id
    file_path := file_path
    raw := none
    epochs := none
    created_at := now
    last_accessed := now
    processing_history := []
    undo_stack := []
    redo_stack := [] }

/-- `MAX_UNDO_STACK = 10` (session_manager.py line 10). -/
def MAX_UNDO_STACK : Nat := 10

namespace Session

/-- `EEGSession.save_state` (lines 31-47).  When `raw` is `None` the body is
skipped entirely.  Otherwise a snapshot `(raw.copy(), new-record, epochs-copy)`
is pushed, the stack is truncated to `MAX_UNDO_STACK` by dropping the oldest
entry when the push made it exceed the bound, and the redo stack is cleared. -/
def save_state (s : Session Raw Epochs) (operation : String)
    (params : List (String × String)) (now : Nat) : Session Raw Epochs :=
  match s.raw with
  | none => s
  | some r =>
      let pushed : List (StackEntry Raw Epochs) :=
        (r, some ⟨operation, params, now⟩, s.epochs) :: s.undo_stack
      let newUndo := if MAX_UNDO_STACK < pushed.length then pushed.dropLast else pushed
      { s with undo_stack := newUndo, redo_stack := [] }

/-- `EEGSession.undo` (lines 49-79).  Returns `(return-value, new session)`.
With the stack empty: `(false, s)`.  Otherwise the current state
`(raw.copy(), history[-1] or None, epochs-copy)` is pushed onto the redo stack
(only when `raw` is not `None`), the top snapshot is popped and its raw and
epochs installed, and the most recent history entry is removed. -/
def undo (s : Session Raw Epochs) : Bool × Session Raw Epochs :=
  match s.undo_stack with
  | [] => (false, s)
  | item :: rest =>
      let s1 :=
        match s.raw with
        | some r =>
            { s with redo_stack :=
                (r, s.processing_history.getLast?, s.epochs) :: s.redo_stack }
        | none => s
      (true,
        { s1 with
            raw := some item.1
            epochs := item.2.2
            undo_stack := rest
            processing_history := s1.processing_history.dropLast })

/-- `EEGSession.redo` (lines 81-109).  Symmetric to `undo`; the restored
history record is appended back when present (`if redo_history:` — a
history dict is always non-empty, so Python truthiness coincides with
`isSome`).  Note: the push onto the undo stack here has *no* capacity
check in the source. -/
def redo (s : Session Raw Epochs) : Bool × Session Raw Epochs :=
  match s.redo_stack with
  | [] => (false, s)
  | item :: rest =>
      let s1 :=
        match s.raw with
        | some r =>
            { s with undo_stack :=
                (r, s.processing_history.getLast?, s.epochs) :: s.undo_stack }
        | none => s
      (true,
        { s1 with
            raw := some item.1
            epochs := item.2.2
            redo_stack := rest
            processing_history :=
              match item.2.1 with
              | some h => s1.processing_history ++ [h]
              | none => s1.processing_history })

/-- `EEGSession.can_undo` (lines 111-113). -/
def can_undo (s : Session Raw Epochs) : Bool :=
  0 < s.undo_stack.length

/-- `EEGSession.can_redo` (lines 115-117). -/
def can_redo (s : Session Raw Epochs) : Bool :=
  0 < s.redo_stack.length

/-- `EEGSession.add_history` (lines 119-125). -/
def add_history (s : Session Raw Epochs) (operation : String)
    (params : List (String × String)) (now : Nat) : Session Raw Epochs :=
  { s with processing_history := s.processing_history ++ [⟨operation, params, now⟩] }

end Session

/-- A mutating operation of `eeg_service` (e.g. `apply_filter`,
`apply_resample`, `create_epochs`, ...): an operation name, its parameter
dict, and the effect of the external processing call on the session's
`raw`/`epochs` pair.  All such operations in the source keep `raw` loaded
(they transform it in place or set `epochs`). -/
structure MutOp (Raw Epochs : Type) where
  name : String
  params : List (String × String)
  mutate : Raw → Option Epochs → Raw × Option Epochs

/-- The common skeleton of every mutating service operation
(`eeg_service.py`, e.g. `apply_filter` lines 786-817): if `raw` is `None`
the service raises `ValueError` before touching the session (modelled as
returning the session unchanged); otherwise it calls `save_state`, performs
the processing call, and appends a history record.  `t1` is the
`datetime.now()` of `save_state`, `t2` the one of `add_history`. -/
def applyMutOp (op : MutOp Raw Epochs) (t1 t2 : Nat)
    (s : Session Raw Epochs) : Session Raw Epochs :=
  match s.raw with
  | none => s
  | some r =>
      let s1 := s.save_state op.name op.params t1
      let me := op.mutate r s1.epochs
      let s2 := { s1 with raw := some me.1, epochs := me.2 }
      s2.add_history op.name op.params t2

/-- Run a list of mutating operations (each with its two timestamps) in
order. -/
def runOps (ops : List (MutOp Raw Epochs × Nat × Nat))
    (s : Session Raw Epochs) : Session Raw Epochs :=
  ops.foldl (fun s x => applyMutOp x.1 x.2.1 x.2.2 s) s

/-- `n` successive calls to `undo`, keeping only the session. -/
def undoN (n : Nat) (s : Session Raw Epochs) : Session Raw Epochs :=
  (fun s => (Session.undo s).2)^[n] s

/-- `n` successive calls to `redo`, keeping only the session. -/
def redoN (n : Nat) (s : Session Raw Epochs) : Session Raw Epochs :=
  (fun s => (Session.redo s).2)^[n] s

/-- One external call against a session, for invariant theorems that
quantify over arbitrary call sequences: the Snapshot-Store entry points
(`save_state`, `undo`, `redo`), plus the surrounding service actions that
touch a session (`load_raw`'s `session.raw = raw` assignment, a processing
mutation of `raw`/`epochs`, and `add_history`). -/
inductive SessionStep (Raw Epochs : Type) where
  | saveState (operation : String) (params : List (String × String)) (now : Nat)
  | undoStep
  | redoStep
  | loadRaw (r : Raw)
  | mutate (f : Raw → Option Epochs → Raw × Option Epochs)
  | addHistory (operation : String) (params : List (String × String)) (now : Nat)

/-- Apply one step to a session. -/
def applyStep (st : SessionStep Raw Epochs) (s : Session Raw Epochs) :
    Session Raw Epochs :=
  match st with
  | .saveState op p t => s.save_state op p t
  | .undoStep => (s.undo).2
  | .redoStep => (s.redo).2
  | .loadRaw r => { s with raw := some r }
  | .mutate f =>
      match s.raw with
      | none => s
      | some r =>
          let me := f r s.epochs
          { s with raw := some me.1, epochs := me.2 }
  | .addHistory op p t => s.add_history op p t

/-- Apply a sequence of steps, first step first. -/
def runSteps (steps : List (SessionStep Raw Epochs)) (s : Session Raw Epochs) :
    Session Raw Epochs :=
  steps.foldl (fun s st => applyStep st s) s

/-!
## Batch processing (`batch_processing_service.py`)

`_process_job` drives a multi-file pipeline, mutating one shared
`BatchJobStatus` object and calling `_notify_progress` (which invokes every
subscribed callback with the live status object) at each `await` point.
The embedding below follows the cooperative-scheduling model of the spec's
§6: the coroutine may only be interrupted at its `await self._notify_progress`
suspension points; `cancel_job` sets the cancel event, cancels the task (so
no further statements of `_process_job` run — `asyncio.CancelledError` is a
`BaseException` and escapes both `except Exception` handlers), awaits its
termination, sets the status to `"cancelled"` and notifies once.  An event
delivered to a callback is therefore the value of the status object at the
notify call, which we record as an immutable snapshot.

Timestamps (`created_at` / `updated_at`) are carried by the status object
but never read by any claim; they are omitted from the embedding.
`progress` is a Python float computed as `((i + 1) / total_files) * 100`;
it is modelled as an exact rational (float rounding is monotone, so the
ordering facts proved below transfer).
-/

/-- `BatchFileResult` (schemas.py lines 341-348). -/
structure BatchFileResult where
  file_path : String
  file_name : String
  status : String
  output_path : Option String := none
  error : Option String := none
  processing_time : Option ℚ := none
deriving DecidableEq, Repr

/-- `BatchJobStatus` (schemas.py lines 351-364), without the two
timestamp fields. -/
structure BatchJobStatus where
  job_id : String
  status : String
  total_files : Nat
  completed_files : Nat
  failed_files : Nat
  current_file : Option String := none
  current_step : Option String := none
  progress : ℚ
  error_message : Option String := none
  results : List BatchFileResult
deriving DecidableEq, Repr

/-- `Path(p).name`: the final component of the path. -/
def pathName (p : String) : String :=
  (p.splitOn "/").getLastD p

/-- What the (excluded, external) processing of one file does: either every
call returns and the export yields an output path (with an elapsed time), or
one of the calls raises.  A failure records the exception text and how many
enabled steps had already run and been notified before the raise (the raise
can come from `load_raw`, any step, or the export). -/
inductive FileOutcome where
  | success (output_path : String) (ptime : ℚ)
  | failure (err : String) (stepsBefore : Nat)
deriving DecidableEq, Repr

/-- The initial `"pending"` result entry for one input file (lines 48-55). -/
def pendingResult (p : String) : BatchFileResult :=
  { file_path := p, file_name := pathName p, status := "pending" }

/-- Whether a file outcome is a success. -/
def FileOutcome.isSuccess : FileOutcome → Bool
  | .success _ _ => true
  | .failure _ _ => false

/-- The initial status built by `create_job` (lines 35-69): status `"idle"`,
zero counters and progress, one `"pending"` result entry per input file. -/
def createJobStatus (job_id : String) (file_paths : List String) : BatchJobStatus :=
  { job_id := job_id
    status := "idle"
    total_files := file_paths.length
    completed_files := 0
    failed_files := 0
    current_file := none
    current_step := none
    progress := 0
    error_message := none
    results := file_paths.map pendingResult }

/-- The `current_step` values notified for one file before its end-of-file
update: `"loading"` first (line 95), then each enabled step's type
(line 114), then `"exporting"` (line 123) — the latter two lists truncated
at the point of failure. -/
def preStepNames (steps : List String) : FileOutcome → List String
  | .success _ _ => "loading" :: (steps ++ ["exporting"])
  | .failure _ stepsBefore => "loading" :: steps.take stepsBefore

/-- The terminal `BatchFileResult` recorded for one file
(lines 137-143 on success, lines 150-155 on failure). -/
def fileResult (path : String) : FileOutcome → BatchFileResult
  | .success out ptime =>
      { file_path := path, file_name := pathName path, status := "success"
        output_path := some out, processing_time := some ptime }
  | .failure err _ =>
      { file_path := path, file_name := pathName path, status := "failed"
        error := some err }

/-- The end-of-file mutation (lines 137-159): record the file's result,
bump the matching counter, and recompute
`progress = ((i + 1) / total_files) * 100`. -/
def fileEndUpdate (i : Nat) (path : String) (oc : FileOutcome)
    (st : BatchJobStatus) : BatchJobStatus :=
  let st' :=
    match oc with
    | .success _ _ => { st with completed_files := st.completed_files + 1 }
    | .failure _ _ => { st with failed_files := st.failed_files + 1 }
  { st' with
      results := st.results.set i (fileResult path oc)
      progress := ((i : ℚ) + 1) / (st.total_files : ℚ) * 100 }

/-- Process one file (loop body, lines 93-160): returns the status after the
file together with the list of status snapshots notified during it.  Each
pre-end notification only updates `current_file`/`current_step`; the final
notification carries the end-of-file update. -/
def processFile (steps : List String) (i : Nat) (path : String)
    (oc : FileOutcome) (st : BatchJobStatus) :
    BatchJobStatus × List BatchJobStatus :=
  let pres := (preStepNames steps oc).map fun c =>
    { st with current_file := some (pathName path), current_step := some c }
  let stPre : BatchJobStatus :=
    { st with current_file := some (pathName path)
              current_step := (preStepNames steps oc).getLast? }
  let stEnd := fileEndUpdate i path oc stPre
  (stEnd, pres ++ [stEnd])

/-- The per-file loop (lines 88-160), started at file index `i`, without
cancellation. -/
def runFilesAux (steps : List String) :
    List (String × FileOutcome) → Nat → BatchJobStatus →
    BatchJobStatus × List BatchJobStatus
  | [], _, st => (st, [])
  | f :: fs, i, st =>
      let r1 := processFile steps i f.1 f.2 st
      let r2 := runFilesAux steps fs (i + 1) r1.1
      (r2.1, r1.2 ++ r2.2)

/-- A complete uncancelled run of `_process_job` (lines 81-168): set status
`"running"` and notify (lines 82-85), process every file, then mark the job
`"completed"` with progress `100`, clear the current file/step and notify
(lines 162-168).  Returns the final status and the full list of notified
snapshots. -/
def processJobRun (steps : List String) (files : List (String × FileOutcome))
    (st0 : BatchJobStatus) : BatchJobStatus × List BatchJobStatus :=
  let stR := { st0 with status := "running" }
  let r := runFilesAux steps files 0 stR
  let stC :=
    { r.1 with
        status := "completed"
        current_file := none
        current_step := none
        progress := 100 }
  (stC, stR :: r.2 ++ [stC])

/-- A run of `_process_job` interrupted by `cancel_job` at its `n`-th
suspension point: the first `n` snapshots have been notified, the coroutine
is killed while suspended (so the status is exactly the `n`-th snapshot, or
the initial `"idle"` status when the task never ran), and `cancel_job`
(lines 299-320) sets the status to `"cancelled"` and notifies one final
time.  Meaningful for `n` strictly below the length of the uncancelled
trace: past that the job is terminal and `cancel_job` returns `False`
without emitting anything. -/
def processJobCancelled (steps : List String)
    (files : List (String × FileOutcome)) (st0 : BatchJobStatus) (n : Nat) :
    BatchJobStatus × List BatchJobStatus :=
  let full := (processJobRun steps files st0).2
  let delivered := full.take n
  let stAt := delivered.getLastD st0
  let stC := { stAt with status := "cancelled" }
  (stC, delivered ++ [stC])

/-!
## TFR analysis jobs (`tfr_jobs.py`)
-/

/-- `TFRStatus = Literal["pending", "running", "completed", "error"]`
(tfr_jobs.py line 32).  There is no `cancelled` member. -/
inductive TFRStatus where
  | pending
  | running
  | completed
  | error
deriving DecidableEq, Repr

/-- `TFRJob` (tfr_jobs.py lines 35-43), timestamps omitted.  The result
payload type `R` (the numeric-arrays or rendered-images dict) is a
parameter; the claims never inspect it. -/
structure TFRJob (R : Type) where
  job_id : String
  status : TFRStatus
  progress : ℚ
  error : Option String := none
  result : Option R := none
  cancelled : Bool := false
deriving DecidableEq, Repr

/-- `TFRJobManager.create_job` (lines 50-60): a `pending` job with progress
`0`. -/
def createTFRJob (R : Type) (job_id : String) : TFRJob R :=
  { job_id := job_id, status := .pending, progress := 0 }

/-- The cancellation message `"任务已被用户取消"` used by `cancel_job` and by
the in-run cancellation checks. -/
def tfrCancelMsg : String := "任务已被用户取消"

/-- `TFRJobManager.cancel_job` (lines 66-75): only a `pending` or `running`
job is cancellable; it is marked `error` with the cancellation message and
progress `1.0`, and `True` is returned. -/
def cancelTFRJob {R : Type} (j : TFRJob R) : Bool × TFRJob R :=
  if j.status = .pending ∨ j.status = .running then
    (true,
      { j with
          cancelled := true
          status := .error
          error := some tfrCancelMsg
          progress := 1 })
  else (false, j)

/-- The `_update` closure of `run_morlet_job` (lines 247-257): each field is
overwritten only when the corresponding argument is not `None`. -/
def tfrUpdate {R : Type} (j : TFRJob R) (status : Option TFRStatus)
    (progress : Option ℚ) (error : Option String) (result : Option R) :
    TFRJob R :=
  { j with
      status := status.getD j.status
      progress := progress.getD j.progress
      error := error.or j.error
      result := result.or j.result }

/-- How one invocation of `run_morlet_job` unfolds, abstracting the external
MNE computation: either some call raises (parameter validation, missing
epochs, or a computation error — all funnelled into the outermost
`except Exception` at lines 471-473), or a concurrently-run `cancel_job`
flips `job.cancelled` and a cancellation checkpoint (batch loop line 329,
image loop line 424) observes it, or the computation completes with a
result payload. -/
inductive MorletOutcome (R : Type) where
  | raises (msg : String)
  | cancelledMidRun
  | completes (result : R)

/-- `TFRJobManager.run_morlet_job` (lines 223-473), collapsed to its effect
on the job record.  If the job was already cancelled on entry the body is
skipped (lines 244-245).  Otherwise the job is marked running (progress
`0.05`), and the terminal `_update` is one of: `error` with the exception
text (line 473), `error` with the cancellation message at a checkpoint
(lines 329-331 / 424-426), or `completed` with the result attached
(lines 440-457 / 460-470).  Intermediate progress-only `_update` calls are
threaded through and overwritten by the terminal one. -/
def runMorletJob {R : Type} (j : TFRJob R) (oc : MorletOutcome R) : TFRJob R :=
  if j.cancelled then j
  else
    let j1 := tfrUpdate j (some .running) (some (5 / 100)) none none
    match oc with
    | .raises msg => tfrUpdate j1 (some .error) (some 1) (some msg) none
    | .cancelledMidRun => tfrUpdate j1 (some .error) (some 1) (some tfrCancelMsg) none
    | .completes res => tfrUpdate j1 (some .completed) (some 1) none (some res)

/-!
## Invariants of the snapshot store

`sessionStackInv` is the sanity condition every session reachable through
the program satisfies: the two stacks together never hold more than
`MAX_UNDO_STACK` entries, and a session with a non-empty stack has a loaded
`raw` (the only pushes in the source happen under `if self.raw is not None`,
and every snapshot stores a non-`None` raw, so `undo`/`redo` re-install a
loaded raw). -/
def sessionStackInv (s : Session Raw Epochs) : Prop :=
  s.undo_stack.length + s.redo_stack.length ≤ MAX_UNDO_STACK ∧
  (s.undo_stack ≠ [] → s.raw.isSome) ∧
  (s.redo_stack ≠ [] → s.raw.isSome)

/-!
## Sample concrete data for witnesses
-/

/-- A concrete loaded session over `Raw = Nat`, `Epochs = Nat`. -/
def demoSession : Session Nat Nat :=
  { session_id := "s1"
    file_path := "/data/a.fif"
    raw := some 3
    epochs := none
    created_at := 0
    last_accessed := 0
    processing_history := [⟨"load", [("file_path", "/data/a.fif")], 0⟩]
    undo_stack := []
    redo_stack := [] }

/-- `demoSession` with a full (10-entry) undo stack. -/
def fullStackSession : Session Nat Nat :=
  { demoSession with
      undo_stack := List.replicate MAX_UNDO_STACK (5, some ⟨"op", [], 1⟩, none) }

/-- `demoSession` with `raw` absent and a non-empty redo stack. -/
def unloadedSession : Session Nat Nat :=
  { demoSession with raw := none, redo_stack := [(9, none, none)] }

/-- A concrete mutating operation: a 1-40 Hz band-pass filter whose
processing call increments the demo raw payload and leaves epochs alone. -/
def demoFilterOp : MutOp Nat Nat :=
  { name := "filter"
    params := [("l_freq", "1"), ("h_freq", "40")]
    mutate := fun r e => (r + 1, e) }

/-- A concrete epoching operation: doubles the demo raw payload and
installs an epochs object derived from it. -/
def demoEpochOp : MutOp Nat Nat :=
  { name := "epoch"
    params := [("tmin", "-0.2"), ("tmax", "0.8")]
    mutate := fun r _ => (r * 2, some (r * 100)) }

/-- A concrete two-operation pipeline: filter, then epoch. -/
def demoOps : List (MutOp Nat Nat × Nat × Nat) :=
  [(demoFilterOp, 1, 2), (demoEpochOp, 3, 4)]

/-- A concrete three-file batch in which the second file fails. -/
def demoFiles : List (String × FileOutcome) :=
  [("/in/a.fif", .success "/out/a_processed.fif" 2),
   ("/in/b.fif", .failure "load failed" 0),
   ("/in/c.fif", .success "/out/c_processed.fif" 3)]

/-- A concrete enabled-step list for the batch pipeline. -/
def demoBatchSteps : List String := ["filter", "resample"]

theorem sessionStackInv_mkSession (sid fp : String) (t : Nat) :
    sessionStackInv (mkSession sid fp t : Session Raw Epochs) := by
  simp [sessionStackInv, mkSession, MAX_UNDO_STACK]

/-- Equation lemma: `save_state` with no loaded raw is the identity. -/
theorem save_state_none {s : Session Raw Epochs} (h : s.raw = none)
    (op : String) (p : List (String × String)) (t : Nat) :
    s.save_state op p t = s := by
  unfold Session.save_state
  rw [h]

/-- Equation lemma: `save_state` with a loaded raw pushes the snapshot,
evicts the oldest entry when the bound is exceeded, and clears the redo
stack. -/
theorem save_state_some {s : Session Raw Epochs} {r : Raw} (h : s.raw = some r)
    (op : String) (p : List (String × String)) (t : Nat) :
    s.save_state op p t =
      { s with
          undo_stack :=
            if MAX_UNDO_STACK < s.undo_stack.length + 1 then
              ((r, some ⟨op, p, t⟩, s.epochs) :: s.undo_stack).dropLast
            else (r, some ⟨op, p, t⟩, s.epochs) :: s.undo_stack
          redo_stack := [] } := by
  unfold Session.save_state
  rw [h]
  simp

/-- Equation lemma: `undo` with an empty undo stack is a no-op returning
`False`. -/
theorem undo_nil {s : Session Raw Epochs} (h : s.undo_stack = []) :
    s.undo = (false, s) := by
  unfold Session.undo
  rw [h]

/-- Equation lemma: `undo` with a loaded raw and a non-empty undo stack. -/
theorem undo_cons_some {s : Session Raw Epochs} {r : Raw}
    {item : StackEntry Raw Epochs} {rest : List (StackEntry Raw Epochs)}
    (hr : s.raw = some r) (hs : s.undo_stack = item :: rest) :
    s.undo = (true,
      { s with
          raw := some item.1
          epochs := item.2.2
          undo_stack := rest
          redo_stack := (r, s.processing_history.getLast?, s.epochs) :: s.redo_stack
          processing_history := s.processing_history.dropLast }) := by
  unfold Session.undo
  rw [hs, hr]

/-- Equation lemma: `undo` with no loaded raw and a non-empty undo stack
restores the snapshot without pushing anything onto the redo stack. -/
theorem undo_cons_none {s : Session Raw Epochs}
    {item : StackEntry Raw Epochs} {rest : List (StackEntry Raw Epochs)}
    (hr : s.raw = none) (hs : s.undo_stack = item :: rest) :
    s.undo = (true,
      { s with
          raw := some item.1
          epochs := item.2.2
          undo_stack := rest
          processing_history := s.processing_history.dropLast }) := by
  unfold Session.undo
  rw [hs, hr]

/-- Equation lemma: `redo` with an empty redo stack is a no-op returning
`False`. -/
theorem redo_nil {s : Session Raw Epochs} (h : s.redo_stack = []) :
    s.redo = (false, s) := by
  unfold Session.redo
  rw [h]

/-- Equation lemma: `redo` with a loaded raw and a non-empty redo stack. -/
theorem redo_cons_some {s : Session Raw Epochs} {r : Raw}
    {item : StackEntry Raw Epochs} {rest : List (StackEntry Raw Epochs)}
    (hr : s.raw = some r) (hs : s.redo_stack = item :: rest) :
    s.redo = (true,
      { s with
          raw := some item.1
          epochs := item.2.2
          undo_stack := (r, s.processing_history.getLast?, s.epochs) :: s.undo_stack
          redo_stack := rest
          processing_history :=
            match item.2.1 with
            | some h => s.processing_history ++ [h]
            | none => s.processing_history }) := by
  unfold Session.redo
  rw [hs, hr]

/-- Equation lemma: `redo` with no loaded raw and a non-empty redo stack. -/
theorem redo_cons_none {s : Session Raw Epochs}
    {item : StackEntry Raw Epochs} {rest : List (StackEntry Raw Epochs)}
    (hr : s.raw = none) (hs : s.redo_stack = item :: rest) :
    s.redo = (true,
      { s with
          raw := some item.1
          epochs := item.2.2
          redo_stack := rest
          processing_history :=
            match item.2.1 with
            | some h => s.processing_history ++ [h]
            | none => s.processing_history }) := by
  unfold Session.redo
  rw [hs, hr]

theorem sessionStackInv_applyStep (st : SessionStep Raw Epochs)
    (s : Session Raw Epochs) (h : sessionStackInv s) :
    sessionStackInv (applyStep st s) := by
  obtain ⟨hlen, hu, hr⟩ := h
  cases st with
  | saveState op p t =>
      cases hraw : s.raw with
      | none => simpa [applyStep, save_state_none hraw] using ⟨hlen, hu, hr⟩
      | some r =>
          rw [applyStep, save_state_some hraw]
          refine ⟨?_, fun _ => by simp [hraw], fun hc => absurd rfl hc⟩
          split <;> simp <;> omega
  | undoStep =>
      cases hstack : s.undo_stack with
      | nil => simpa [applyStep, undo_nil hstack] using ⟨hlen, hu, hr⟩
      | cons item rest =>
          rw [hstack] at hlen
          simp only [List.length_cons] at hlen
          cases hraw : s.raw with
          | none =>
              rw [applyStep, (undo_cons_none hraw hstack)]
              exact ⟨by simp; omega, fun _ => by simp, fun _ => by simp⟩
          | some r =>
              rw [applyStep, (undo_cons_some hraw hstack)]
              exact ⟨by simp; omega, fun _ => by simp, fun _ => by simp⟩
  | redoStep =>
      cases hstack : s.redo_stack with
      | nil => simpa [applyStep, redo_nil hstack] using ⟨hlen, hu, hr⟩
      | cons item rest =>
          rw [hstack] at hlen
          simp only [List.length_cons] at hlen
          cases hraw : s.raw with
          | none =>
              rw [applyStep, (redo_cons_none hraw hstack)]
              exact ⟨by simp; omega, fun _ => by simp, fun _ => by simp⟩
          | some r =>
              rw [applyStep, (redo_cons_some hraw hstack)]
              exact ⟨by simp; omega, fun _ => by simp, fun _ => by simp⟩
  | loadRaw r =>
      exact ⟨by simpa [applyStep] using hlen, fun _ => by simp [applyStep], fun _ => by simp [applyStep]⟩
  | mutate f =>
      cases hraw : s.raw with
      | none => simpa [applyStep, hraw] using ⟨hlen, hu, hr⟩
      | some r =>
          exact ⟨by simpa [applyStep, hraw] using hlen, fun _ => by simp [applyStep, hraw], fun _ => by simp [applyStep, hraw]⟩
  | addHistory op p t =>
      simpa [applyStep, Session.add_history] using ⟨hlen, hu, hr⟩

theorem sessionStackInv_runSteps (steps : List (SessionStep Raw Epochs))
    (s : Session Raw Epochs) (h : sessionStackInv s) :
    sessionStackInv (runSteps steps s) := by
  induction steps generalizing s with
  | nil => simpa [runSteps] using h
  | cons st rest ih =>
      have h1 := sessionStackInv_applyStep st s h
      simpa [runSteps, List.foldl_cons] using ih (applyStep st s) h1

/-- Equation lemma: a mutating service operation on a session with a loaded
raw saves a snapshot, clears the redo stack, installs the mutated
raw/epochs, and appends a history record. -/
theorem applyMutOp_some {s : Session Raw Epochs} {r : Raw} (h : s.raw = some r)
    (op : MutOp Raw Epochs) (t1 t2 : Nat) :
    applyMutOp op t1 t2 s =
      { s with
          raw := some (op.mutate r s.epochs).1
          epochs := (op.mutate r s.epochs).2
          undo_stack :=
            if MAX_UNDO_STACK < s.undo_stack.length + 1 then
              ((r, some ⟨op.name, op.params, t1⟩, s.epochs) :: s.undo_stack).dropLast
            else (r, some ⟨op.name, op.params, t1⟩, s.epochs) :: s.undo_stack
          redo_stack := []
          processing_history :=
            s.processing_history ++ [⟨op.name, op.params, t2⟩] } := by
  unfold applyMutOp
  rw [h, save_state_some h]
  simp [Session.add_history]

theorem runOps_cons (x : MutOp Raw Epochs × Nat × Nat)
    (rest : List (MutOp Raw Epochs × Nat × Nat)) (s : Session Raw Epochs) :
    runOps (x :: rest) s = runOps rest (applyMutOp x.1 x.2.1 x.2.2 s) :=
  rfl

theorem undoN_succ (n : Nat) (s : Session Raw Epochs) :
    undoN (n + 1) s = ((undoN n s).undo).2 :=
  Function.iterate_succ_apply' _ n s

theorem redoN_succ (n : Nat) (s : Session Raw Epochs) :
    redoN (n + 1) s = redoN n ((s.redo).2) :=
  Function.iterate_succ_apply _ n s

/-- The undo/redo roundtrip workhorse.  For a loaded session and at most
`MAX_UNDO_STACK` mutating operations: undoing them all restores the
session's raw, epochs and history exactly (the undo stack is left as a
prefix `take m` of the original, with `m` large enough that no snapshot
the operations pushed was ever evicted), and the redo stack `RT` built by
those undos replays — from any session sharing the same core and carrying
`RT` (plus anything below it) as redo stack — to the same raw, epochs and
history the operations produce directly. -/
theorem roundtrip_aux (ops : List (MutOp Raw Epochs × Nat × Nat)) :
    ∀ (s : Session Raw Epochs) (r : Raw), s.raw = some r →
      ops.length ≤ MAX_UNDO_STACK →
      ∃ (m : Nat) (RT : List (StackEntry Raw Epochs)),
        min s.undo_stack.length (MAX_UNDO_STACK - ops.length) ≤ m ∧
        undoN ops.length (runOps ops s) =
          { s with undo_stack := s.undo_stack.take m, redo_stack := RT } ∧
        ∀ (V RT' : List (StackEntry Raw Epochs)),
          (redoN ops.length { s with undo_stack := V, redo_stack := RT ++ RT' }).raw
              = (runOps ops s).raw ∧
          (redoN ops.length { s with undo_stack := V, redo_stack := RT ++ RT' }).epochs
              = (runOps ops s).epochs ∧
          (redoN ops.length
              { s with undo_stack := V, redo_stack := RT ++ RT' }).processing_history
              = (runOps ops s).processing_history := by
  induction ops with
  | nil =>
      intro s r hr _
      refine ⟨s.undo_stack.length, s.redo_stack, Nat.min_le_left _ _,
        by simp [undoN, runOps, List.take_length], fun V RT' => ⟨rfl, rfl, rfl⟩⟩
  | cons x rest ih =>
      rcases x with ⟨op, t1, t2⟩
      intro s r hr hlen
      obtain ⟨sid, fp, sraw, seps, sca, sla, H, U, R⟩ := s
      have hraweq : sraw = some r := hr
      subst hraweq
      simp only [List.length_cons, MAX_UNDO_STACK] at hlen
      -- the undo stack after the push-and-maybe-evict, as a cons
      obtain ⟨W, hWstack, hWbound⟩ :
          ∃ W : List (StackEntry Raw Epochs),
            (if MAX_UNDO_STACK < U.length + 1
              then (((r, some ⟨op.name, op.params, t1⟩, seps)) :: U).dropLast
              else ((r, some ⟨op.name, op.params, t1⟩, seps)) :: U) =
              ((r, some ⟨op.name, op.params, t1⟩, seps)) :: W ∧
            ∀ k : Nat, min (W.length + 1) (MAX_UNDO_STACK - rest.length) ≤ k + 1 →
              ∃ mm : Nat, W.take k = U.take mm ∧
                min U.length (MAX_UNDO_STACK - (rest.length + 1)) ≤ mm := by
        by_cases hev : MAX_UNDO_STACK < U.length + 1
        · have hUne : U ≠ [] := by
            intro hnil
            rw [hnil] at hev
            simp [MAX_UNDO_STACK] at hev
          refine ⟨U.dropLast, by rw [if_pos hev, List.dropLast_cons_of_ne_nil hUne], ?_⟩
          intro k hk
          refine ⟨min k (U.length - 1), ?_, ?_⟩
          · rw [List.dropLast_eq_take, List.take_take]
          · simp only [List.length_dropLast] at hk
            simp only [MAX_UNDO_STACK] at hev hk ⊢
            omega
        · refine ⟨U, by rw [if_neg hev], ?_⟩
          intro k hk
          refine ⟨k, rfl, ?_⟩
          simp only [MAX_UNDO_STACK] at hev hk ⊢
          omega
      -- the session after the first operation
      have hs1 : applyMutOp op t1 t2 ⟨sid, fp, some r, seps, sca, sla, H, U, R⟩ =
          ⟨sid, fp, some (op.mutate r seps).1, (op.mutate r seps).2, sca, sla,
            H ++ [⟨op.name, op.params, t2⟩],
            ((r, some ⟨op.name, op.params, t1⟩, seps)) :: W, []⟩ := by
        rw [applyMutOp_some rfl]
        dsimp only
        rw [hWstack]
      obtain ⟨m', RT', hm', hundo, hredo⟩ :=
        ih ⟨sid, fp, some (op.mutate r seps).1, (op.mutate r seps).2, sca, sla,
              H ++ [⟨op.name, op.params, t2⟩],
              ((r, some ⟨op.name, op.params, t1⟩, seps)) :: W, []⟩
          (op.mutate r seps).1 rfl (by simp only [MAX_UNDO_STACK]; omega)
      dsimp only at hm' hundo hredo
      simp only [List.length_cons] at hm'
      obtain ⟨km, rfl⟩ : ∃ km, m' = km + 1 := by
        refine ⟨m' - 1, ?_⟩
        have h1 : 1 ≤ m' := by
          simp only [MAX_UNDO_STACK] at hm'
          omega
        omega
      obtain ⟨mm, hmmtake, hmmbound⟩ := hWbound km hm'
      refine ⟨mm,
        ((op.mutate r seps).1, some ⟨op.name, op.params, t2⟩, (op.mutate r seps).2) :: RT',
        ?_, ?_, ?_⟩
      · simpa using hmmbound
      · -- N+1 undos restore the original core
        show undoN ((⟨op, t1, t2⟩ :: rest) : List (MutOp Raw Epochs × Nat × Nat)).length _ = _
        rw [List.length_cons, runOps_cons]
        dsimp only
        rw [hs1, undoN_succ, hundo]
        rw [List.take_succ_cons, hmmtake]
        rw [undo_cons_some rfl rfl]
        dsimp only
        simp [List.getLast?_concat, List.dropLast_concat]
      · -- N+1 redos replay to the final core
        intro V RT'
        rw [List.length_cons]
        simp only [List.cons_append]
        rw [redoN_succ]
        rw [redo_cons_some rfl rfl]
        dsimp only
        rw [runOps_cons]
        dsimp only
        rw [hs1]
        exact hredo ((r, H.getLast?, seps) :: V) RT'


/-!
## Claims about the snapshot store
-/

/-- **C1.** For every session holding a loaded raw and every sequence of
at most `MAX_UNDO_STACK = 10` mutating operations (each of which calls
`save_state` before mutating and `add_history` after, which is what
`applyMutOp` embeds), performing as many undos returns the session to its
original raw, epochs, and history; performing that many undos followed by
as many redos reaches the same raw/epochs/history end state as performing
the operations directly. -/
theorem claim_C1_undo_redo_roundtrip
    (Raw Epochs : Type) (ops : List (MutOp Raw Epochs × Nat × Nat))
    (s : Session Raw Epochs) (r : Raw) (hr : s.raw = some r)
    (hlen : ops.length ≤ MAX_UNDO_STACK) :
    ((undoN ops.length (runOps ops s)).raw = s.raw ∧
     (undoN ops.length (runOps ops s)).epochs = s.epochs ∧
     (undoN ops.length (runOps ops s)).processing_history = s.processing_history) ∧
    ((redoN ops.length (undoN ops.length (runOps ops s))).raw = (runOps ops s).raw ∧
     (redoN ops.length (undoN ops.length (runOps ops s))).epochs
        = (runOps ops s).epochs ∧
     (redoN ops.length (undoN ops.length (runOps ops s))).processing_history
        = (runOps ops s).processing_history) := by
  obtain ⟨m, RT, _, hundo, hredo⟩ := roundtrip_aux ops s r hr hlen
  constructor
  · rw [hundo]
    exact ⟨rfl, rfl, rfl⟩
  · rw [hundo]
    have h := hredo (s.undo_stack.take m) []
    rw [List.append_nil] at h
    exact h

theorem claim_C1_witness :
    demoSession.raw = some 3 ∧
    demoOps.length ≤ MAX_UNDO_STACK ∧
    (((undoN demoOps.length (runOps demoOps demoSession)).raw = demoSession.raw ∧
      (undoN demoOps.length (runOps demoOps demoSession)).epochs = demoSession.epochs ∧
      (undoN demoOps.length (runOps demoOps demoSession)).processing_history
        = demoSession.processing_history) ∧
     ((redoN demoOps.length (undoN demoOps.length (runOps demoOps demoSession))).raw
        = (runOps demoOps demoSession).raw ∧
      (redoN demoOps.length (undoN demoOps.length (runOps demoOps demoSession))).epochs
        = (runOps demoOps demoSession).epochs ∧
      (redoN demoOps.length
          (undoN demoOps.length (runOps demoOps demoSession))).processing_history
        = (runOps demoOps demoSession).processing_history)) :=
  ⟨rfl, by decide,
    claim_C1_undo_redo_roundtrip Nat Nat demoOps demoSession 3 rfl (by decide)⟩

/-- **C10.** When a session's raw is absent, `save_state` is a complete
no-op: the session — in particular its undo stack and its redo stack — is
returned exactly unchanged, so a mutating-operation name invoked on a
session with no loaded data evicts nothing and does not clear surviving
redo history. -/
theorem claim_C10_save_state_noop_without_raw
    (Raw Epochs : Type) (s : Session Raw Epochs) (op : String)
    (p : List (String × String)) (t : Nat) (h : s.raw = none) :
    s.save_state op p t = s ∧
    (s.save_state op p t).undo_stack = s.undo_stack ∧
    (s.save_state op p t).redo_stack = s.redo_stack := by
  have he := save_state_none h op p t
  exact ⟨he, by rw [he], by rw [he]⟩

theorem claim_C10_witness :
    unloadedSession.raw = none ∧
    (unloadedSession.save_state "filter" [] 7 = unloadedSession ∧
      (unloadedSession.save_state "filter" [] 7).undo_stack = unloadedSession.undo_stack ∧
      (unloadedSession.save_state "filter" [] 7).redo_stack = unloadedSession.redo_stack) :=
  ⟨rfl, claim_C10_save_state_noop_without_raw Nat Nat unloadedSession "filter" [] 7 rfl⟩

/-- **C4.** Any mutating operation on a session with a loaded raw (which
calls `save_state` before mutating) leaves the redo stack empty, so
`can_redo` reports `false` afterwards: redo history does not survive a new
forward action. -/
theorem claim_C4_mutation_clears_redo
    (Raw Epochs : Type) (op : MutOp Raw Epochs) (t1 t2 : Nat)
    (s : Session Raw Epochs) (r : Raw) (h : s.raw = some r) :
    (applyMutOp op t1 t2 s).redo_stack = [] ∧
    (applyMutOp op t1 t2 s).can_redo = false := by
  rw [applyMutOp_some h]
  simp [Session.can_redo]

theorem claim_C4_witness :
    { demoSession with redo_stack := [(9, none, none)] }.can_redo = true ∧
    { demoSession with redo_stack := [(9, none, none)] }.raw = some 3 ∧
    ((applyMutOp demoFilterOp 1 2 { demoSession with redo_stack := [(9, none, none)] }).redo_stack = [] ∧
      (applyMutOp demoFilterOp 1 2 { demoSession with redo_stack := [(9, none, none)] }).can_redo = false) := by
  refine ⟨by decide, rfl, claim_C4_mutation_clears_redo Nat Nat demoFilterOp 1 2 _ 3 rfl⟩

/-- **C5 counterexample.** The claim states that a snapshot pushed by
`save_state` carries, as its history component, the session's last history
entry at capture time.  On `demoSession` (whose last history entry is the
`"load"` record) a `save_state` for a `"filter"` operation pushes a
snapshot whose history component is a fresh `"filter"` record instead. -/
theorem claim_C5_counterexample :
    ¬ ((demoSession.save_state "filter" [("l_freq", "1")] 9).undo_stack.head?.map
          (fun e => e.2.1)
        = some (demoSession.processing_history.getLast?)) := by
  decide

/-- **C5 (amended).** Every snapshot pushed by `save_state` contains the
session's current raw and epochs (copies), and — as its history component —
a freshly created record describing the operation about to run (its name,
its params, and the current timestamp), not the pre-existing last history
entry. -/
theorem claim_C5_snapshot_contents
    (Raw Epochs : Type) (s : Session Raw Epochs) (r : Raw) (op : String)
    (p : List (String × String)) (t : Nat) (h : s.raw = some r) :
    (s.save_state op p t).undo_stack.head? =
      some (r, some ⟨op, p, t⟩, s.epochs) := by
  rw [save_state_some h]
  split
  · rename_i hlt
    have hne : s.undo_stack ≠ [] := by
      intro hnil
      rw [hnil] at hlt
      simp [MAX_UNDO_STACK] at hlt
    rw [List.dropLast_cons_of_ne_nil hne]
    rfl
  · rfl

theorem claim_C5_witness :
    demoSession.raw = some 3 ∧
    (demoSession.save_state "filter" [("l_freq", "1")] 9).undo_stack.head? =
      some (3, some ⟨"filter", [("l_freq", "1")], 9⟩, demoSession.epochs) :=
  ⟨rfl, claim_C5_snapshot_contents Nat Nat demoSession 3 "filter" [("l_freq", "1")] 9 rfl⟩

/-- **C2.** `undo` on an empty undo stack returns `false` and changes
nothing.  Otherwise (for a session with a loaded raw — and every session
reachable through the program whose undo stack is non-empty has a loaded
raw, which the third conjunct establishes) it pushes the current state
`(raw, last history entry, epochs)` onto the redo stack, pops the most
recent snapshot, installs the snapshot's raw and epochs together (epochs
becomes absent exactly when the snapshot stored none), removes the most
recent history entry, and returns `true`. -/
theorem claim_C2_undo_contract :
    (∀ (Raw Epochs : Type) (s : Session Raw Epochs),
        s.undo_stack = [] → s.undo = (false, s)) ∧
    (∀ (Raw Epochs : Type) (s : Session Raw Epochs) (r : Raw)
        (item : StackEntry Raw Epochs) (rest : List (StackEntry Raw Epochs)),
        s.raw = some r → s.undo_stack = item :: rest →
        s.undo = (true,
          { s with
              raw := some item.1
              epochs := item.2.2
              undo_stack := rest
              redo_stack :=
                (r, s.processing_history.getLast?, s.epochs) :: s.redo_stack
              processing_history := s.processing_history.dropLast })) ∧
    (∀ (Raw Epochs : Type) (steps : List (SessionStep Raw Epochs))
        (sid fp : String) (t : Nat),
        (runSteps steps (mkSession sid fp t)).undo_stack ≠ [] →
        (runSteps steps (mkSession sid fp t)).raw.isSome) := by
  refine ⟨fun _ _ s h => undo_nil h, fun _ _ s r item rest hr hs => undo_cons_some hr hs, ?_⟩
  intro Raw Epochs steps sid fp t hne
  exact (sessionStackInv_runSteps steps _ (sessionStackInv_mkSession sid fp t)).2.1 hne

theorem claim_C2_witness :
    fullStackSession.raw = some 3 ∧
    fullStackSession.undo_stack =
      (5, some ⟨"op", [], 1⟩, none) :: List.replicate 9 (5, some ⟨"op", [], 1⟩, none) ∧
    fullStackSession.undo = (true,
      { fullStackSession with
          raw := some 5
          epochs := none
          undo_stack := List.replicate 9 (5, some ⟨"op", [], 1⟩, none)
          redo_stack :=
            (3, fullStackSession.processing_history.getLast?, fullStackSession.epochs)
              :: fullStackSession.redo_stack
          processing_history := fullStackSession.processing_history.dropLast }) :=
  ⟨rfl, by decide,
    claim_C2_undo_contract.2.1 Nat Nat fullStackSession 3
      (5, some ⟨"op", [], 1⟩, none) (List.replicate 9 (5, some ⟨"op", [], 1⟩, none))
      rfl (by decide)⟩

/-- **C3.** Under every sequence of snapshot-store calls on a session
(here: any sequence of `save_state`, `undo`, `redo`, together with the
surrounding raw-loading / processing / history steps, starting from a
fresh session), the undo stack never holds more than `MAX_UNDO_STACK = 10`
snapshots; and a `save_state` on a loaded session whose undo stack already
holds 10 snapshots pushes the new snapshot and evicts exactly the oldest
entry (FIFO eviction: in this embedding the stack top is the list head, so
the oldest entry is the last element, removed by `dropLast`). -/
theorem claim_C3_undo_stack_bounded :
    (∀ (Raw Epochs : Type) (steps : List (SessionStep Raw Epochs))
        (sid fp : String) (t : Nat),
        (runSteps steps (mkSession sid fp t)).undo_stack.length ≤ MAX_UNDO_STACK) ∧
    (∀ (Raw Epochs : Type) (s : Session Raw Epochs) (r : Raw) (op : String)
        (p : List (String × String)) (t : Nat),
        s.raw = some r → s.undo_stack.length = MAX_UNDO_STACK →
        (s.save_state op p t).undo_stack =
          (r, some ⟨op, p, t⟩, s.epochs) :: s.undo_stack.dropLast) := by
  constructor
  · intro Raw Epochs steps sid fp t
    have h := (sessionStackInv_runSteps steps _ (sessionStackInv_mkSession sid fp t)).1
    omega
  · intro Raw Epochs s r op p t hr hlen
    rw [save_state_some hr]
    have hne : s.undo_stack ≠ [] := by
      intro hnil
      rw [hnil] at hlen
      simp [MAX_UNDO_STACK] at hlen
    simp only [hlen]
    rw [if_pos (by simp [MAX_UNDO_STACK])]
    rw [List.dropLast_cons_of_ne_nil hne]

theorem claim_C3_witness :
    fullStackSession.raw = some 3 ∧
    fullStackSession.undo_stack.length = MAX_UNDO_STACK ∧
    (fullStackSession.save_state "resample" [("sfreq", "250")] 4).undo_stack =
      (3, some ⟨"resample", [("sfreq", "250")], 4⟩, none)
        :: fullStackSession.undo_stack.dropLast :=
  ⟨rfl, by decide,
    claim_C3_undo_stack_bounded.2 Nat Nat fullStackSession 3
      "resample" [("sfreq", "250")] 4 rfl (by decide)⟩

/-!
## Claims about the batch orchestrator
-/

theorem set_append_length {α : Type} (A : List α) (b : α) (B : List α) (x : α) :
    (A ++ b :: B).set A.length x = A ++ x :: B := by
  induction A with
  | nil => rfl
  | cons a A ih => simp only [List.cons_append, List.length_cons, List.set_cons_succ, ih]

/-- The scalar fields `_process_job`'s per-file loop preserves, and how it
transforms the counters and the result list: starting from a status whose
results are `A` (already settled) followed by one pending entry per
remaining file, the loop settles each remaining file to its terminal
result and bumps the matching counters. -/
theorem runFilesAux_spec (steps : List String) :
    ∀ (fs : List (String × FileOutcome)) (A : List BatchFileResult)
      (st : BatchJobStatus),
      st.results = A ++ fs.map (fun f => pendingResult f.1) →
      (runFilesAux steps fs A.length st).1.status = st.status ∧
      (runFilesAux steps fs A.length st).1.job_id = st.job_id ∧
      (runFilesAux steps fs A.length st).1.total_files = st.total_files ∧
      (runFilesAux steps fs A.length st).1.error_message = st.error_message ∧
      (runFilesAux steps fs A.length st).1.completed_files
          = st.completed_files + fs.countP (fun f => f.2.isSuccess) ∧
      (runFilesAux steps fs A.length st).1.failed_files
          = st.failed_files + fs.countP (fun f => !f.2.isSuccess) ∧
      (runFilesAux steps fs A.length st).1.results
          = A ++ fs.map (fun f => fileResult f.1 f.2) := by
  intro fs
  induction fs with
  | nil =>
      intro A st hres
      refine ⟨rfl, rfl, rfl, rfl, by simp [runFilesAux], by simp [runFilesAux], ?_⟩
      simpa [runFilesAux] using hres
  | cons f fs ih =>
      rcases f with ⟨p, oc⟩
      intro A st hres
      simp only [List.map_cons] at hres
      -- the status after this file
      have hEndRes : (processFile steps A.length p oc st).1.results
          = A ++ fileResult p oc :: fs.map (fun f => pendingResult f.1) := by
        have hset : (processFile steps A.length p oc st).1.results
            = st.results.set A.length (fileResult p oc) := by
          cases oc <;> rfl
        rw [hset, hres, set_append_length]
      have hstep := ih (A ++ [fileResult p oc]) (processFile steps A.length p oc st).1
        (by rw [hEndRes]; simp)
      simp only [List.length_append, List.length_cons, List.length_nil] at hstep
      obtain ⟨h1, h2, h3, h4, h5, h6, h7⟩ := hstep
      have hgoal : runFilesAux steps ((p, oc) :: fs) A.length st
          = ((runFilesAux steps fs (A.length + 1) (processFile steps A.length p oc st).1).1,
             (processFile steps A.length p oc st).2
               ++ (runFilesAux steps fs (A.length + 1) (processFile steps A.length p oc st).1).2) :=
        rfl
      rw [hgoal]
      dsimp only
      refine ⟨?_, ?_, ?_, ?_, ?_, ?_, ?_⟩
      · rw [h1]; cases oc <;> rfl
      · rw [h2]; cases oc <;> rfl
      · rw [h3]; cases oc <;> rfl
      · rw [h4]; cases oc <;> rfl
      · rw [h5]
        cases oc <;> (simp [List.countP_cons, FileOutcome.isSuccess, processFile, fileEndUpdate]; try omega)
      · rw [h6]
        cases oc <;> (simp [List.countP_cons, FileOutcome.isSuccess, processFile, fileEndUpdate]; try omega)
      · rw [h7]
        simp

/-- The terminal status of an uncancelled `_process_job` run: `"completed"`,
progress `100`, success/failure counters matching the outcomes, and every
file settled to its terminal result. -/
theorem processJobRun_final (steps : List String)
    (files : List (String × FileOutcome)) (jid : String) :
    (processJobRun steps files (createJobStatus jid (files.map Prod.fst))).1.status
        = "completed" ∧
    (processJobRun steps files (createJobStatus jid (files.map Prod.fst))).1.completed_files
        = files.countP (fun f => f.2.isSuccess) ∧
    (processJobRun steps files (createJobStatus jid (files.map Prod.fst))).1.failed_files
        = files.countP (fun f => !f.2.isSuccess) ∧
    (processJobRun steps files (createJobStatus jid (files.map Prod.fst))).1.results
        = files.map (fun f => fileResult f.1 f.2) ∧
    (processJobRun steps files (createJobStatus jid (files.map Prod.fst))).1.progress
        = 100 := by
  have hres : ({ createJobStatus jid (files.map Prod.fst) with
      status := "running" } : BatchJobStatus).results
      = ([] : List BatchFileResult) ++ files.map (fun f => pendingResult f.1) := by
    simp [createJobStatus, List.map_map, Function.comp]
  obtain ⟨h1, h2, h3, h4, h5, h6, h7⟩ := runFilesAux_spec steps files [] _ hres
  simp only [List.length_nil, List.nil_append] at h5 h6 h7
  exact ⟨rfl, by simpa [createJobStatus] using h5, by simpa [createJobStatus] using h6,
    h7, rfl⟩


/-- **C6.** A processing failure of one file in a batch job is recorded in
that file's result entry (status `"failed"`, error text attached) and does
not abort the job: absent cancellation the remaining files are still
processed and the job terminates `"completed"` with the counters matching
the outcomes.  In particular a three-file job whose second file fails ends
`"completed"` with `completed_files = 2`, `failed_files = 1`, and the
failing file's result carries a non-empty error. -/
theorem claim_C6_file_failure_isolated :
    (∀ (steps : List String) (files : List (String × FileOutcome)) (jid : String),
      (processJobRun steps files (createJobStatus jid (files.map Prod.fst))).1.status
          = "completed" ∧
      (processJobRun steps files (createJobStatus jid (files.map Prod.fst))).1.completed_files
          = files.countP (fun f => f.2.isSuccess) ∧
      (processJobRun steps files (createJobStatus jid (files.map Prod.fst))).1.failed_files
          = files.countP (fun f => !f.2.isSuccess) ∧
      (∀ (i sb : Nat) (p e : String),
        files.get? i = some (p, FileOutcome.failure e sb) →
        (processJobRun steps files
            (createJobStatus jid (files.map Prod.fst))).1.results.get? i
            = some (fileResult p (FileOutcome.failure e sb)) ∧
        (fileResult p (FileOutcome.failure e sb)).status = "failed" ∧
        (fileResult p (FileOutcome.failure e sb)).error = some e)) ∧
    (∀ (steps : List String) (jid p1 p2 p3 o1 o3 e : String) (q1 q3 : ℚ) (sb : Nat),
      e ≠ "" →
      (processJobRun steps
          [(p1, FileOutcome.success o1 q1), (p2, FileOutcome.failure e sb),
            (p3, FileOutcome.success o3 q3)]
          (createJobStatus jid
            ([(p1, FileOutcome.success o1 q1), (p2, FileOutcome.failure e sb),
              (p3, FileOutcome.success o3 q3)].map Prod.fst))).1.status = "completed" ∧
      (processJobRun steps
          [(p1, FileOutcome.success o1 q1), (p2, FileOutcome.failure e sb),
            (p3, FileOutcome.success o3 q3)]
          (createJobStatus jid
            ([(p1, FileOutcome.success o1 q1), (p2, FileOutcome.failure e sb),
              (p3, FileOutcome.success o3 q3)].map Prod.fst))).1.completed_files = 2 ∧
      (processJobRun steps
          [(p1, FileOutcome.success o1 q1), (p2, FileOutcome.failure e sb),
            (p3, FileOutcome.success o3 q3)]
          (createJobStatus jid
            ([(p1, FileOutcome.success o1 q1), (p2, FileOutcome.failure e sb),
              (p3, FileOutcome.success o3 q3)].map Prod.fst))).1.failed_files = 1 ∧
      ∃ err, (processJobRun steps
          [(p1, FileOutcome.success o1 q1), (p2, FileOutcome.failure e sb),
            (p3, FileOutcome.success o3 q3)]
          (createJobStatus jid
            ([(p1, FileOutcome.success o1 q1), (p2, FileOutcome.failure e sb),
              (p3, FileOutcome.success o3 q3)].map Prod.fst))).1.results.get? 1
          = some (fileResult p2 (FileOutcome.failure e sb)) ∧
        (fileResult p2 (FileOutcome.failure e sb)).error = some err ∧ err ≠ "") := by
  constructor
  · intro steps files jid
    obtain ⟨h1, h2, h3, h4, _⟩ := processJobRun_final steps files jid
    refine ⟨h1, h2, h3, fun i sb p e hget => ⟨?_, rfl, rfl⟩⟩
    rw [h4, List.get?_map, hget]
    rfl
  · intro steps jid p1 p2 p3 o1 o3 e q1 q3 sb he
    obtain ⟨h1, h2, h3, h4, _⟩ := processJobRun_final steps
      [(p1, FileOutcome.success o1 q1), (p2, FileOutcome.failure e sb),
        (p3, FileOutcome.success o3 q3)] jid
    refine ⟨h1, ?_, ?_, e, ?_, rfl, he⟩
    · rw [h2]
      simp [List.countP_cons, FileOutcome.isSuccess]
    · rw [h3]
      simp [List.countP_cons, FileOutcome.isSuccess]
    · rw [h4]
      rfl

theorem claim_C6_witness :
    ("load failed" : String) ≠ "" ∧
    ((processJobRun demoBatchSteps demoFiles
        (createJobStatus "job1" (demoFiles.map Prod.fst))).1.status = "completed" ∧
      (processJobRun demoBatchSteps demoFiles
        (createJobStatus "job1" (demoFiles.map Prod.fst))).1.completed_files = 2 ∧
      (processJobRun demoBatchSteps demoFiles
        (createJobStatus "job1" (demoFiles.map Prod.fst))).1.failed_files = 1 ∧
      ∃ err, (processJobRun demoBatchSteps demoFiles
          (createJobStatus "job1" (demoFiles.map Prod.fst))).1.results.get? 1
          = some (fileResult "/in/b.fif" (FileOutcome.failure "load failed" 0)) ∧
        (fileResult "/in/b.fif" (FileOutcome.failure "load failed" 0)).error = some err ∧
        err ≠ "") :=
  ⟨by decide,
    claim_C6_file_failure_isolated.2 demoBatchSteps "job1" "/in/a.fif" "/in/b.fif"
      "/in/c.fif" "/out/a_processed.fif" "/out/c_processed.fif" "load failed" 2 3 0
      (by decide)⟩

theorem getLastD_mem_of_ne_nil {α : Type} (l : List α) (h : l ≠ []) (d : α) :
    l.getLastD d ∈ l := by
  induction l generalizing d with
  | nil => exact absurd rfl h
  | cons a l ih =>
      rw [List.getLastD_cons]
      cases hl : l with
      | nil => subst hl; simp [List.getLastD]
      | cons b l' =>
          subst hl
          exact List.mem_cons_of_mem _ (ih (by simp) a)

theorem pairwise_progress_le_getLastD (l : List BatchJobStatus)
    (hp : l.Pairwise (fun a b => a.progress ≤ b.progress)) (d : BatchJobStatus) :
    ∀ x ∈ l, x.progress ≤ (l.getLastD d).progress := by
  induction l generalizing d with
  | nil => intro x hx; cases hx
  | cons a l ih =>
      intro x hx
      rw [List.getLastD_cons]
      rcases List.mem_cons.mp hx with rfl | hx'
      · cases hl : l with
        | nil => subst hl; simp [List.getLastD]
        | cons b l' =>
            subst hl
            exact (List.pairwise_cons.mp hp).1 _ (getLastD_mem_of_ne_nil _ (by simp) x)
      · cases hl : l with
        | nil => subst hl; cases hx'
        | cons b l' =>
            subst hl
            exact ih (List.pairwise_cons.mp hp).2 a x hx'

theorem chain'_cons_const (st : BatchJobStatus) (l : List BatchJobStatus)
    (h : ∀ e ∈ l, e.progress = st.progress) :
    List.Chain' (fun a b => a.progress ≤ b.progress) (st :: l) := by
  induction l generalizing st with
  | nil => simp
  | cons e l ih =>
      rw [List.chain'_cons]
      refine ⟨le_of_eq (h e (by simp)).symm, ?_⟩
      exact ih e fun x hx =>
        (h x (List.mem_cons_of_mem _ hx)).trans (h e (by simp)).symm

theorem getLast?_cons_const (st : BatchJobStatus) (l : List BatchJobStatus)
    (h : ∀ e ∈ l, e.progress = st.progress) :
    ∀ x ∈ (st :: l).getLast?, x.progress = st.progress := by
  induction l generalizing st with
  | nil =>
      intro x hx
      simp only [List.getLast?_singleton, Option.mem_def, Option.some.injEq] at hx
      rw [← hx]
  | cons e l ih =>
      intro x hx
      rw [List.getLast?_cons_cons] at hx
      have hx' := ih e (fun y hy =>
        (h y (List.mem_cons_of_mem _ hy)).trans (h e (by simp)).symm) x hx
      rw [hx', h e (by simp)]

/-- Progress monotonicity of the per-file loop: starting the loop at file
index `i` with a current progress below the next file's end progress, the
notified snapshots form a non-decreasing progress chain, the loop's final
status is the last snapshot (or the entry status when no file remains),
and the final progress stays at most `100`. -/
theorem runFilesAux_chain (steps : List String) :
    ∀ (fs : List (String × FileOutcome)) (i : Nat) (st : BatchJobStatus),
      0 < st.total_files →
      i + fs.length ≤ st.total_files →
      st.progress ≤ ((i : ℚ) + 1) / (st.total_files : ℚ) * 100 →
      st.progress ≤ 100 →
      List.Chain' (fun a b => a.progress ≤ b.progress)
          (st :: (runFilesAux steps fs i st).2) ∧
      (st :: (runFilesAux steps fs i st).2).getLast?
          = some (runFilesAux steps fs i st).1 ∧
      (runFilesAux steps fs i st).1.progress ≤ 100 := by
  intro fs
  induction fs with
  | nil =>
      intro i st _ _ _ h100
      exact ⟨by simp [runFilesAux], by simp [runFilesAux], by simpa [runFilesAux] using h100⟩
  | cons f fs ih =>
      rcases f with ⟨p, oc⟩
      intro i st hT hlen hle h100
      simp only [List.length_cons] at hlen
      have hTQ : (0 : ℚ) < (st.total_files : ℚ) := by exact_mod_cast hT
      -- the end-of-file status
      have hF2 : (processFile steps i p oc st).1.progress
          = ((i : ℚ) + 1) / (st.total_files : ℚ) * 100 := by
        cases oc <;> rfl
      have hFtot : (processFile steps i p oc st).1.total_files = st.total_files := by
        cases oc <;> rfl
      -- the per-step snapshots keep the current progress
      have hF1 : ∀ e ∈ (preStepNames steps oc).map (fun c =>
          ({ st with current_file := some (pathName p), current_step := some c }
            : BatchJobStatus)), e.progress = st.progress := by
        intro e he
        obtain ⟨c, _, rfl⟩ := List.mem_map.mp he
        rfl
      have hiT : ((i : ℚ) + 1) ≤ (st.total_files : ℚ) := by
        exact_mod_cast Nat.succ_le_of_lt (by omega)
      have hEnd100 : (processFile steps i p oc st).1.progress ≤ 100 := by
        rw [hF2]
        have hstep : ((i : ℚ) + 1) / (st.total_files : ℚ) * 100
            ≤ (st.total_files : ℚ) / (st.total_files : ℚ) * 100 := by gcongr
        rw [div_self (ne_of_gt hTQ)] at hstep
        linarith
      obtain ⟨ihc, ihl, ihp⟩ := ih (i + 1) (processFile steps i p oc st).1
        (by rw [hFtot]; exact hT)
        (by rw [hFtot]; simpa using (by omega : (i + 1) + fs.length ≤ st.total_files))
        (by
          rw [hF2, hFtot]
          push_cast
          gcongr
          linarith)
        hEnd100
      have hlist : st :: (runFilesAux steps ((p, oc) :: fs) i st).2
          = (st :: (preStepNames steps oc).map (fun c =>
              ({ st with current_file := some (pathName p), current_step := some c }
                : BatchJobStatus)))
            ++ ((processFile steps i p oc st).1
                :: (runFilesAux steps fs (i + 1) (processFile steps i p oc st).1).2) := by
        show st :: ((processFile steps i p oc st).2
            ++ (runFilesAux steps fs (i + 1) (processFile steps i p oc st).1).2) = _
        show st :: (((preStepNames steps oc).map (fun c =>
            ({ st with current_file := some (pathName p), current_step := some c }
              : BatchJobStatus)) ++ [(processFile steps i p oc st).1])
            ++ (runFilesAux steps fs (i + 1) (processFile steps i p oc st).1).2) = _
        simp
      refine ⟨?_, ?_, ?_⟩
      · rw [hlist, List.chain'_append]
        refine ⟨chain'_cons_const st _ hF1, ihc, ?_⟩
        intro x hx y hy
        simp only [List.head?_cons, Option.mem_def, Option.some.injEq] at hy
        rw [getLast?_cons_const st _ hF1 x hx, ← hy]
        rw [hF2]
        exact hle
      · rw [hlist, List.getLast?_append, ihl]
        rfl
      · exact ihp

/-- Shape of every snapshot notified inside the per-file loop: the status
string is untouched, and the result list is always "first `j` files settled
to their terminal results, remaining files still pending". -/
theorem runFilesAux_events_shape (steps : List String) :
    ∀ (fs : List (String × FileOutcome)) (A : List BatchFileResult)
      (st : BatchJobStatus),
      st.results = A ++ fs.map (fun f => pendingResult f.1) →
      ∀ e ∈ (runFilesAux steps fs A.length st).2,
        e.status = st.status ∧
        ∃ j, j ≤ fs.length ∧
          e.results = A ++ ((fs.take j).map (fun f => fileResult f.1 f.2)
                        ++ (fs.drop j).map (fun f => pendingResult f.1)) := by
  intro fs
  induction fs with
  | nil =>
      intro A st _ e he
      simp [runFilesAux] at he
  | cons f fs ih =>
      rcases f with ⟨p, oc⟩
      intro A st hres e he
      simp only [List.map_cons] at hres
      have hEndRes : (processFile steps A.length p oc st).1.results
          = A ++ fileResult p oc :: fs.map (fun f => pendingResult f.1) := by
        have hset : (processFile steps A.length p oc st).1.results
            = st.results.set A.length (fileResult p oc) := by
          cases oc <;> rfl
        rw [hset, hres, set_append_length]
      have hsplit : (runFilesAux steps ((p, oc) :: fs) A.length st).2
          = ((preStepNames steps oc).map (fun c =>
              ({ st with current_file := some (pathName p), current_step := some c }
                : BatchJobStatus)) ++ [(processFile steps A.length p oc st).1])
            ++ (runFilesAux steps fs (A.length + 1) (processFile steps A.length p oc st).1).2 :=
        rfl
      rw [hsplit] at he
      rcases List.mem_append.mp he with hpre | hrest
      · rcases List.mem_append.mp hpre with hmap | hend
        · obtain ⟨c, _, rfl⟩ := List.mem_map.mp hmap
          refine ⟨rfl, 0, Nat.zero_le _, ?_⟩
          simpa using hres
        · have he' : e = (processFile steps A.length p oc st).1 := by
            simpa using hend
          subst he'
          refine ⟨by cases oc <;> rfl, 1, by simp only [List.length_cons]; omega, ?_⟩
          rw [hEndRes]
          simp
      · have hstEnd : (processFile steps A.length p oc st).1.status = st.status := by
          cases oc <;> rfl
        have hstep := ih (A ++ [fileResult p oc]) (processFile steps A.length p oc st).1
          (by rw [hEndRes]; simp)
        simp only [List.length_append, List.length_cons, List.length_nil] at hstep
        obtain ⟨hs, j, hj, hr⟩ := hstep e hrest
        refine ⟨hs.trans hstEnd, j + 1, by simp only [List.length_cons]; omega, ?_⟩
        rw [hr]
        simp [List.take_succ_cons, List.drop_succ_cons]

/-- The full uncancelled notification trace of `_process_job` is a
non-decreasing progress chain ending in the terminal `"completed"`
snapshot. -/
theorem processJobRun_chain (steps : List String)
    (files : List (String × FileOutcome)) (jid : String) :
    List.Chain' (fun a b => a.progress ≤ b.progress)
        (processJobRun steps files (createJobStatus jid (files.map Prod.fst))).2 ∧
    (processJobRun steps files (createJobStatus jid (files.map Prod.fst))).2.getLast?
        = some (processJobRun steps files (createJobStatus jid (files.map Prod.fst))).1 := by
  cases hfe : files with
  | nil =>
      subst hfe
      constructor
      · show List.Chain' _ [_, _]
        rw [List.chain'_cons]
        refine ⟨?_, by simp⟩
        show (0 : ℚ) ≤ 100
        norm_num
      · rfl
  | cons f0 fsrest =>
      have hne : files ≠ [] := by rw [hfe]; simp
      rw [← hfe]
      have hprog : ({ createJobStatus jid (files.map Prod.fst) with status := "running" }
          : BatchJobStatus).progress = 0 := rfl
      have htot : ({ createJobStatus jid (files.map Prod.fst) with status := "running" }
          : BatchJobStatus).total_files = files.length := by
        simp [createJobStatus]
      have hT : 0 < ({ createJobStatus jid (files.map Prod.fst) with status := "running" }
          : BatchJobStatus).total_files := by
        rw [htot]
        exact List.length_pos.mpr hne
      obtain ⟨mc, ml, mp⟩ := runFilesAux_chain steps files 0
        ({ createJobStatus jid (files.map Prod.fst) with status := "running" })
        hT (by rw [htot]; omega) (by rw [hprog]; positivity) (by rw [hprog]; norm_num)
      refine ⟨?_, ?_⟩
      · show List.Chain' _
          ((({ createJobStatus jid (files.map Prod.fst) with status := "running" }
            : BatchJobStatus)
            :: (runFilesAux steps files 0
                { createJobStatus jid (files.map Prod.fst) with status := "running" }).2)
           ++ [(processJobRun steps files (createJobStatus jid (files.map Prod.fst))).1])
        rw [List.chain'_append]
        refine ⟨mc, by simp, ?_⟩
        intro x hx y hy
        rw [ml] at hx
        simp only [List.head?_cons, Option.mem_def, Option.some.injEq] at hx hy
        rw [← hx, ← hy]
        exact mp
      · show (((({ createJobStatus jid (files.map Prod.fst) with status := "running" }
            : BatchJobStatus)
            :: (runFilesAux steps files 0
                { createJobStatus jid (files.map Prod.fst) with status := "running" }).2)
           ++ [(processJobRun steps files
                  (createJobStatus jid (files.map Prod.fst))).1]).getLast?) = _
        rw [List.getLast?_append]
        rfl

/-- The first `n` delivered snapshots of a run are a prefix of the
pre-terminal trace whenever `n` is below the full trace length. -/
theorem processJobRun_trace_split (steps : List String)
    (files : List (String × FileOutcome)) (jid : String) (n : Nat)
    (hn : n < (processJobRun steps files
        (createJobStatus jid (files.map Prod.fst))).2.length) :
    (processJobRun steps files (createJobStatus jid (files.map Prod.fst))).2.take n
      = (({ createJobStatus jid (files.map Prod.fst) with status := "running" }
          : BatchJobStatus)
          :: (runFilesAux steps files 0
              { createJobStatus jid (files.map Prod.fst) with
                  status := "running" }).2).take n := by
  have hlenfull : (processJobRun steps files
        (createJobStatus jid (files.map Prod.fst))).2.length
      = (({ createJobStatus jid (files.map Prod.fst) with status := "running" }
          : BatchJobStatus)
          :: (runFilesAux steps files 0
              { createJobStatus jid (files.map Prod.fst) with
                  status := "running" }).2).length + 1 := by
    show (_ :: (_ ++ [_]) : List BatchJobStatus).length = _
    simp
  rw [hlenfull] at hn
  show ((({ createJobStatus jid (files.map Prod.fst) with status := "running" }
      : BatchJobStatus)
      :: (runFilesAux steps files 0
          { createJobStatus jid (files.map Prod.fst) with
              status := "running" }).2)
    ++ [(processJobRun steps files
          (createJobStatus jid (files.map Prod.fst))).1]).take n = _
  exact List.take_append_of_le_length (by omega)

/-- Every snapshot delivered before the terminal one reports status
`"running"` and a result list in which a prefix of the files is settled
and the rest is pending. -/
theorem processJobRun_pre_terminal_events (steps : List String)
    (files : List (String × FileOutcome)) (jid : String) :
    ∀ e ∈ (({ createJobStatus jid (files.map Prod.fst) with status := "running" }
        : BatchJobStatus)
        :: (runFilesAux steps files 0
            { createJobStatus jid (files.map Prod.fst) with status := "running" }).2),
      e.status = "running" ∧ ∃ K, K ≤ files.length ∧
        e.results = (files.take K).map (fun f => fileResult f.1 f.2)
          ++ (files.drop K).map (fun f => pendingResult f.1) := by
  have hres0 : (createJobStatus jid (files.map Prod.fst)).results
      = files.map (fun f => pendingResult f.1) := by
    simp [createJobStatus, List.map_map, Function.comp]
  have hresR : ({ createJobStatus jid (files.map Prod.fst) with status := "running" }
      : BatchJobStatus).results = ([] : List BatchFileResult)
        ++ files.map (fun f => pendingResult f.1) := by
    simpa using hres0
  intro e he
  rcases List.mem_cons.mp he with rfl | he'
  · refine ⟨rfl, 0, Nat.zero_le _, ?_⟩
    simpa using hres0
  · obtain ⟨hs, j, hj, hr⟩ := runFilesAux_events_shape steps files [] _ hresR e he'
    exact ⟨hs, j, hj, by simpa using hr⟩

/-- **C7.** For a batch job cancelled after `n` delivered snapshots (with
the job not yet terminal): the files fully processed before the
cancellation keep their terminal results and the files not yet finished
keep their `"pending"` entries (the result list is a settled prefix plus a
pending suffix), the job's status becomes `"cancelled"`, the final
delivered event is exactly the cancellation event, and no earlier
delivered event reports `"cancelled"`. -/
theorem claim_C7_cancelled_batch_job (steps : List String)
    (files : List (String × FileOutcome)) (jid : String) (n : Nat)
    (hn : n < (processJobRun steps files
        (createJobStatus jid (files.map Prod.fst))).2.length) :
    (processJobCancelled steps files (createJobStatus jid (files.map Prod.fst)) n).1.status
        = "cancelled" ∧
    (∃ K, K ≤ files.length ∧
      (processJobCancelled steps files
          (createJobStatus jid (files.map Prod.fst)) n).1.results
        = (files.take K).map (fun f => fileResult f.1 f.2)
          ++ (files.drop K).map (fun f => pendingResult f.1)) ∧
    (processJobCancelled steps files
        (createJobStatus jid (files.map Prod.fst)) n).2.getLast?
      = some (processJobCancelled steps files
          (createJobStatus jid (files.map Prod.fst)) n).1 ∧
    (∀ e ∈ (processJobCancelled steps files
        (createJobStatus jid (files.map Prod.fst)) n).2.dropLast,
      e.status ≠ "cancelled") := by
  have hres0 : (createJobStatus jid (files.map Prod.fst)).results
      = files.map (fun f => pendingResult f.1) := by
    simp [createJobStatus, List.map_map, Function.comp]
  have htaken := processJobRun_trace_split steps files jid n hn
  have hdel : ∀ e ∈ (processJobRun steps files
        (createJobStatus jid (files.map Prod.fst))).2.take n,
      e.status = "running" ∧ ∃ K, K ≤ files.length ∧
        e.results = (files.take K).map (fun f => fileResult f.1 f.2)
          ++ (files.drop K).map (fun f => pendingResult f.1) := by
    intro e he
    rw [htaken] at he
    exact processJobRun_pre_terminal_events steps files jid e (List.take_subset _ _ he)
  refine ⟨rfl, ?_, List.getLast?_concat _, ?_⟩
  · show ∃ K, K ≤ files.length ∧
      (((processJobRun steps files
          (createJobStatus jid (files.map Prod.fst))).2.take n).getLastD
        (createJobStatus jid (files.map Prod.fst))).results
        = (files.take K).map (fun f => fileResult f.1 f.2)
          ++ (files.drop K).map (fun f => pendingResult f.1)
    by_cases hd : (processJobRun steps files
        (createJobStatus jid (files.map Prod.fst))).2.take n = []
    · rw [hd]
      refine ⟨0, Nat.zero_le _, ?_⟩
      simpa [List.getLastD] using hres0
    · exact (hdel _ (getLastD_mem_of_ne_nil _ hd _)).2
  · intro e he
    have hdrop : (processJobCancelled steps files
        (createJobStatus jid (files.map Prod.fst)) n).2.dropLast
        = (processJobRun steps files
            (createJobStatus jid (files.map Prod.fst))).2.take n :=
      List.dropLast_concat
    rw [hdrop] at he
    rw [(hdel e he).1]
    decide

theorem claim_C7_witness :
    (3 < (processJobRun demoBatchSteps demoFiles
        (createJobStatus "job1" (demoFiles.map Prod.fst))).2.length) ∧
    ((processJobCancelled demoBatchSteps demoFiles
        (createJobStatus "job1" (demoFiles.map Prod.fst)) 3).1.status = "cancelled" ∧
    (∃ K, K ≤ demoFiles.length ∧
      (processJobCancelled demoBatchSteps demoFiles
          (createJobStatus "job1" (demoFiles.map Prod.fst)) 3).1.results
        = (demoFiles.take K).map (fun f => fileResult f.1 f.2)
          ++ (demoFiles.drop K).map (fun f => pendingResult f.1)) ∧
    (processJobCancelled demoBatchSteps demoFiles
        (createJobStatus "job1" (demoFiles.map Prod.fst)) 3).2.getLast?
      = some (processJobCancelled demoBatchSteps demoFiles
          (createJobStatus "job1" (demoFiles.map Prod.fst)) 3).1 ∧
    (∀ e ∈ (processJobCancelled demoBatchSteps demoFiles
        (createJobStatus "job1" (demoFiles.map Prod.fst)) 3).2.dropLast,
      e.status ≠ "cancelled")) :=
  ⟨by decide,
    claim_C7_cancelled_batch_job demoBatchSteps demoFiles "job1" 3 (by decide)⟩

/-- **C8.** For every batch job, the sequence of progress values carried by
the delivered status snapshots is monotonically non-decreasing — and so is
the subsequence any late subscriber sees — and the last delivered snapshot
carries the job's terminal status: `"completed"` for an uncancelled run,
`"cancelled"` for a run cancelled mid-flight. -/
theorem claim_C8_progress_monotone (steps : List String)
    (files : List (String × FileOutcome)) (jid : String) :
    (((processJobRun steps files
        (createJobStatus jid (files.map Prod.fst))).2.map
          (fun e => e.progress)).Pairwise (· ≤ ·) ∧
      (∀ d, (((processJobRun steps files
          (createJobStatus jid (files.map Prod.fst))).2.drop d).map
            (fun e => e.progress)).Pairwise (· ≤ ·)) ∧
      (processJobRun steps files
          (createJobStatus jid (files.map Prod.fst))).2.getLast?.map
            (fun e => e.status)
        = some (processJobRun steps files
            (createJobStatus jid (files.map Prod.fst))).1.status ∧
      (processJobRun steps files
          (createJobStatus jid (files.map Prod.fst))).1.status = "completed") ∧
    (∀ n, n < (processJobRun steps files
        (createJobStatus jid (files.map Prod.fst))).2.length →
      ((processJobCancelled steps files
          (createJobStatus jid (files.map Prod.fst)) n).2.map
            (fun e => e.progress)).Pairwise (· ≤ ·) ∧
      (∀ d, (((processJobCancelled steps files
          (createJobStatus jid (files.map Prod.fst)) n).2.drop d).map
            (fun e => e.progress)).Pairwise (· ≤ ·)) ∧
      (processJobCancelled steps files
          (createJobStatus jid (files.map Prod.fst)) n).2.getLast?.map
            (fun e => e.status)
        = some (processJobCancelled steps files
            (createJobStatus jid (files.map Prod.fst)) n).1.status ∧
      (processJobCancelled steps files
          (createJobStatus jid (files.map Prod.fst)) n).1.status = "cancelled") := by
  haveI : IsTrans BatchJobStatus (fun a b => a.progress ≤ b.progress) :=
    ⟨fun _ _ _ => le_trans⟩
  obtain ⟨hch, hlast⟩ := processJobRun_chain steps files jid
  have hPW : (processJobRun steps files
      (createJobStatus jid (files.map Prod.fst))).2.Pairwise
        (fun a b => a.progress ≤ b.progress) :=
    List.chain'_iff_pairwise.mp hch
  constructor
  · refine ⟨List.pairwise_map.mpr hPW, ?_, ?_, rfl⟩
    · intro d
      exact List.pairwise_map.mpr (List.Pairwise.sublist (List.drop_sublist _ _) hPW)
    · rw [hlast]
      rfl
  · intro n hn
    have hPWdel : ((processJobRun steps files
        (createJobStatus jid (files.map Prod.fst))).2.take n).Pairwise
          (fun a b => a.progress ≤ b.progress) :=
      List.Pairwise.sublist (List.take_sublist _ _) hPW
    have hPWc : (processJobCancelled steps files
        (createJobStatus jid (files.map Prod.fst)) n).2.Pairwise
          (fun a b => a.progress ≤ b.progress) := by
      show (((processJobRun steps files
          (createJobStatus jid (files.map Prod.fst))).2.take n)
        ++ [(processJobCancelled steps files
            (createJobStatus jid (files.map Prod.fst)) n).1]).Pairwise _
      rw [List.pairwise_append]
      refine ⟨hPWdel, by simp, ?_⟩
      intro a ha b hb
      rw [List.mem_singleton.mp hb]
      exact pairwise_progress_le_getLastD _ hPWdel
        (createJobStatus jid (files.map Prod.fst)) a ha
    refine ⟨List.pairwise_map.mpr hPWc, ?_, ?_, rfl⟩
    · intro d
      exact List.pairwise_map.mpr (List.Pairwise.sublist (List.drop_sublist _ _) hPWc)
    · rw [show (processJobCancelled steps files
          (createJobStatus jid (files.map Prod.fst)) n).2.getLast?
          = some (processJobCancelled steps files
              (createJobStatus jid (files.map Prod.fst)) n).1
        from List.getLast?_concat _]
      rfl

theorem claim_C8_witness :
    (5 < (processJobRun demoBatchSteps demoFiles
        (createJobStatus "job2" (demoFiles.map Prod.fst))).2.length) ∧
    (((processJobCancelled demoBatchSteps demoFiles
        (createJobStatus "job2" (demoFiles.map Prod.fst)) 5).2.map
          (fun e => e.progress)).Pairwise (· ≤ ·) ∧
      (∀ d, (((processJobCancelled demoBatchSteps demoFiles
          (createJobStatus "job2" (demoFiles.map Prod.fst)) 5).2.drop d).map
            (fun e => e.progress)).Pairwise (· ≤ ·)) ∧
      (processJobCancelled demoBatchSteps demoFiles
          (createJobStatus "job2" (demoFiles.map Prod.fst)) 5).2.getLast?.map
            (fun e => e.status)
        = some (processJobCancelled demoBatchSteps demoFiles
            (createJobStatus "job2" (demoFiles.map Prod.fst)) 5).1.status ∧
      (processJobCancelled demoBatchSteps demoFiles
          (createJobStatus "job2" (demoFiles.map Prod.fst)) 5).1.status = "cancelled") :=
  ⟨by decide,
    (claim_C8_progress_monotone demoBatchSteps demoFiles "job2").2 5 (by decide)⟩

/-!
## Claims about the TFR analysis job engine
-/

/-- **C9.** A TFR job run ends in exactly one of two terminal statuses:
`completed` with the result attached, or `error` with a message attached
(the status enum has no separate `cancelled` member at all).  Cancelling a
`pending` or `running` job succeeds and leaves it terminated with status
`error` and the distinguishing cancellation message; a subsequent run
invocation is a no-op on the cancelled job. -/
theorem claim_C9_tfr_terminal_statuses :
    (∀ (R : Type) (jid : String) (oc : MorletOutcome R),
      ((runMorletJob (createTFRJob R jid) oc).status = TFRStatus.completed ∧
        (runMorletJob (createTFRJob R jid) oc).result.isSome) ∨
      ((runMorletJob (createTFRJob R jid) oc).status = TFRStatus.error ∧
        (runMorletJob (createTFRJob R jid) oc).error.isSome)) ∧
    (∀ (R : Type) (j : TFRJob R),
      (j.status = TFRStatus.pending ∨ j.status = TFRStatus.running) →
      (cancelTFRJob j).1 = true ∧
      (cancelTFRJob j).2.status = TFRStatus.error ∧
      (cancelTFRJob j).2.error = some tfrCancelMsg ∧
      (∀ (oc : MorletOutcome R), runMorletJob (cancelTFRJob j).2 oc = (cancelTFRJob j).2)) := by
  constructor
  · intro R jid oc
    cases oc with
    | raises msg =>
        right
        constructor <;> simp [runMorletJob, createTFRJob, tfrUpdate, Option.or]
    | cancelledMidRun =>
        right
        constructor <;> simp [runMorletJob, createTFRJob, tfrUpdate, Option.or]
    | completes res =>
        left
        constructor <;> simp [runMorletJob, createTFRJob, tfrUpdate, Option.or]
  · intro R j hj
    refine ⟨?_, ?_, ?_, fun oc => ?_⟩ <;>
      simp [cancelTFRJob, if_pos hj, runMorletJob]

theorem claim_C9_witness :
    ((createTFRJob Nat "t1").status = TFRStatus.pending ∨
      (createTFRJob Nat "t1").status = TFRStatus.running) ∧
    ((cancelTFRJob (createTFRJob Nat "t1")).1 = true ∧
      (cancelTFRJob (createTFRJob Nat "t1")).2.status = TFRStatus.error ∧
      (cancelTFRJob (createTFRJob Nat "t1")).2.error = some tfrCancelMsg ∧
      (∀ (oc : MorletOutcome Nat),
        runMorletJob (cancelTFRJob (createTFRJob Nat "t1")).2 oc
          = (cancelTFRJob (createTFRJob Nat "t1")).2)) :=
  ⟨Or.inl rfl,
    claim_C9_tfr_terminal_statuses.2 Nat (createTFRJob Nat "t1") (Or.inl rfl)⟩

end EEGPlatform
